import Mathlib

/-!
Verification of the local semantic-retrieval subsystem of the repository:
the RAG retriever (src/tools/rag_retrieval_tool.py), the knowledge-base
builder and chunker (src/tools/build_knowledge_base.py), and the adaptive
query router (src/utils/query_router.py).

Modelling conventions:
- Python strings are modelled as lists of characters (List Char); string
  literals from the source appear as String literals converted with .toList.
- Python floats are modelled as rationals (ℚ); the float constants 0.05,
  0.2, 0.3, 0.75, 0.95, 1.05 of the source appear as the rationals
  1/20, 1/5, 3/10, 3/4, 19/20, 21/20.
- numpy arrays of embedding vectors are modelled as List (List ℚ).
- The sentence-transformers embedding model is an injected external
  capability; it is abstracted as a function parameter, and the composite
  of embedding plus cosine similarity over the stored vectors is abstracted
  as the list of similarity scores it produces.
- Stateful methods are modelled as functions from the explicit state.
-/

/-! ### Python string primitives on character lists -/

/-- Python s.lower(): lower-case every character. -/
def pyLower (s : List Char) : List Char :=
  s.map Char.toLower

/-- Python substring membership, needle in hay. -/
def pyContains (hay needle : List Char) : Bool :=
  hay.tails.any (fun t => needle.isPrefixOf t)

/-- Python s.split() with no separator: split on runs of whitespace and
drop empty pieces.  Skips leading whitespace, otherwise takes the maximal
non-whitespace run as the next word. -/
def pyWords : List Char → List (List Char)
  | [] => []
  | c :: cs =>
    if c.isWhitespace then
      pyWords cs
    else
      (c :: cs.takeWhile (fun d => !d.isWhitespace)) ::
        pyWords (cs.dropWhile (fun d => !d.isWhitespace))
termination_by s => s.length
decreasing_by
  · simp
  · have h1 : (cs.dropWhile (fun d => !d.isWhitespace)).length ≤ cs.length :=
      (List.dropWhile_sublist _).length_le
    simp only [List.length_cons]
    omega

/-- Python sep.join for sep a single space, as used by the chunker. -/
def joinWords : List (List Char) → List Char
  | [] => []
  | [w] => w
  | w :: ws => w ++ ' ' :: joinWords ws

/-! ### Retriever data model (src/tools/rag_retrieval_tool.py)

A metadata record is the dict built by SimpleRAGRetriever.add_documents:
keys content, source, topic, chunk_id, word_count. -/

structure Meta where
  content : List Char
  source : List Char
  topic : List Char
  chunk_id : ℕ
  word_count : ℕ
deriving DecidableEq, Repr, Inhabited

/-- A search result is a copy of a metadata record annotated with the three
score keys written by SimpleRAGRetriever.search. -/
structure SearchResult where
  meta : Meta
  relevance_score : ℚ
  semantic_score : ℚ
  keyword_score : ℚ
deriving DecidableEq, Repr

/-- The in-memory index state of SimpleRAGRetriever: the embeddings array
and the parallel metadata list. -/
structure KBState where
  embeddings : List (List ℚ)
  metadata : List Meta
deriving DecidableEq, Repr

/-- np.argsort(similarities)[::-1]: indices of the similarity list, sorted
ascending by value, then reversed.  numpy's default sort leaves the order
of ties unspecified; this model fixes the stable order. -/
def argsort_desc (sims : List ℚ) : List ℕ :=
  ((List.range sims.length).mergeSort
    (fun a b => decide (sims.getD a 0 ≤ sims.getD b 0))).reverse

/-- Body of the per-candidate loop of SimpleRAGRetriever.search: skip an
index out of range of the metadata list, skip a similarity below
min_relevance, otherwise copy the metadata record and annotate it with the
semantic score, the keyword boost min(0.2, 0.05 * matches) over the
deduplicated lower-cased query terms, and the final relevance score
min(1.0, similarity + keyword_score). -/
def score_result (metadata : List Meta) (sims : List ℚ) (query : List Char)
    (min_relevance : ℚ) (idx : ℕ) : Option SearchResult :=
  if h : idx < metadata.length then
    let similarity := sims.getD idx 0
    if similarity < min_relevance then
      none
    else
      let m := metadata.get ⟨idx, h⟩
      let query_terms := (pyWords (pyLower query)).dedup
      let content := pyLower m.content
      let keyword_matches := query_terms.countP (fun t => pyContains content t)
      let keyword_score := min ((1 : ℚ)/5) ((keyword_matches : ℚ) * (1/20))
      some ⟨m, min 1 (similarity + keyword_score), similarity, keyword_score⟩
  else
    none

/-- SimpleRAGRetriever.search: return [] on an empty index; otherwise take
the top 2 * n_results indices by raw similarity, score each candidate, sort
the survivors descending by final relevance (Python's sort is stable) and
truncate to n_results.  The similarity list sims abstracts
self._cosine_similarity(self.embedder.encode([query])[0], self.embeddings),
the composite of the injected embedding model and the cosine scan. -/
def search (metadata : List Meta) (sims : List ℚ) (query : List Char)
    (n_results : ℕ) (min_relevance : ℚ) : List SearchResult :=
  if metadata.length = 0 then
    []
  else
    let top_indices := (argsort_desc sims).take (n_results * 2)
    let results := top_indices.filterMap (score_result metadata sims query min_relevance)
    (results.mergeSort
      (fun a b => decide (b.relevance_score ≤ a.relevance_score))).take n_results

/-- The search method as a state transformer: it reads the state but writes
no field of it (the source method only builds local copies of the metadata
records), so the returned state is the input state.  sim_fn abstracts the
injected embedder combined with the cosine-similarity scan. -/
def search_state (sim_fn : List Char → List (List ℚ) → List ℚ) (st : KBState)
    (query : List Char) (n_results : ℕ) (min_relevance : ℚ) :
    List SearchResult × KBState :=
  (search st.metadata (sim_fn query st.embeddings) query n_results min_relevance, st)

/-! ### Index-store mutation (SimpleRAGRetriever.add_documents) -/

/-- An input chunk dict for add_documents: the text key is always present,
the source, topic and chunk_id keys are read with .get defaults. -/
structure InChunk where
  text : List Char
  source : Option (List Char)
  topic : Option (List Char)
  chunk_id : Option ℕ
deriving DecidableEq, Repr

/-- The metadata dict built for one chunk, where n is len(self.metadata) at
the time the chunk is processed. -/
def mkMeta (c : InChunk) (n : ℕ) : Meta :=
  { content := c.text
    source := c.source.getD "Unknown".toList
    topic := c.topic.getD "General".toList
    chunk_id := c.chunk_id.getD n
    word_count := (pyWords c.text).length }

/-- SimpleRAGRetriever.add_documents: return unchanged on an empty batch;
otherwise embed one vector per chunk (embed abstracts the injected
sentence-transformers model), make the new vectors the array when the array
is empty and vstack them onto it otherwise, and append one metadata record
per chunk, reading len(self.metadata) as it grows for the chunk_id default.
The subsequent self._save() is durable-storage I/O and is not modelled.
The source method contains no length check and no raise statement, so the
model is a total function into the new state. -/
def add_documents (embed : List Char → List ℚ) (st : KBState)
    (chunks : List InChunk) : KBState :=
  match chunks with
  | [] => st
  | _ =>
    let new_embeddings := (chunks.map (fun c => c.text)).map embed
    let embeddings :=
      if st.embeddings.length = 0 then new_embeddings
      else st.embeddings ++ new_embeddings
    let metadata := chunks.foldl (fun acc c => acc ++ [mkMeta c acc.length]) st.metadata
    ⟨embeddings, metadata⟩

/-! ### Chunker (SimpleKnowledgeBaseBuilder, src/tools/build_knowledge_base.py) -/

/-- chunk_size from SimpleKnowledgeBaseBuilder.__init__. -/
def chunk_size : ℕ := 500

/-- chunk_overlap from SimpleKnowledgeBaseBuilder.__init__. -/
def chunk_overlap : ℕ := 50

/-- The topic taxonomy of SimpleKnowledgeBaseBuilder._infer_topic, in the
dict insertion order the source iterates in. -/
def topic_table : List (List Char × List (List Char)) :=
  [("Artificial Intelligence".toList,
      ["ai".toList, "artificial intelligence".toList, "machine learning".toList,
       "deep learning".toList]),
   ("Technology".toList,
      ["software".toList, "programming".toList, "code".toList, "algorithm".toList,
       "tech".toList]),
   ("Business".toList,
      ["business".toList, "marketing".toList, "sales".toList, "strategy".toList]),
   ("Health".toList,
      ["health".toList, "medical".toList, "wellness".toList]),
   ("Education".toList,
      ["education".toList, "learning".toList, "teaching".toList])]

/-- SimpleKnowledgeBaseBuilder._infer_topic: lower-case the filename plus
the first 500 characters of the chunk text and return the first taxonomy
entry one of whose keywords occurs in it, defaulting to General. -/
def infer_topic (filename content : List Char) : List Char :=
  let text := pyLower (filename ++ ' ' :: content.take 500)
  match topic_table.find? (fun p => p.2.any (fun kw => pyContains text kw)) with
  | some p => p.1
  | none => "General".toList

/-- A chunk dict emitted by SimpleKnowledgeBaseBuilder._chunk_text. -/
structure Chunk where
  text : List Char
  source : List Char
  topic : List Char
  chunk_id : ℕ
deriving DecidableEq, Repr

/-- Whitespace normalization of _chunk_text: the re.sub collapsing every
maximal whitespace run to a single space, followed by strip removing edge
whitespace — which is exactly the single-space join of the
whitespace-split words of the text. -/
def normalize_ws (text : List Char) : List Char :=
  joinWords (pyWords text)

/-- The loop of SimpleKnowledgeBaseBuilder._chunk_text over
range(0, len(words), chunk_size - chunk_overlap): window words[i:i+500],
emitted when its re-split word count reaches 50, with chunk_id equal to the
number of chunks already emitted. -/
def chunk_loop (words : List (List Char)) (filename : List Char) (i : ℕ)
    (acc : List Chunk) : List Chunk :=
  if i < words.length then
    let chunk_words := (words.drop i).take chunk_size
    let chunk_text := joinWords chunk_words
    let acc2 :=
      if 50 ≤ (pyWords chunk_text).length then
        acc ++ [{ text := chunk_text, source := filename,
                  topic := infer_topic filename chunk_text, chunk_id := acc.length }]
      else acc
    chunk_loop words filename (i + (chunk_size - chunk_overlap)) acc2
  else acc
termination_by words.length - i
decreasing_by
  simp only [chunk_size, chunk_overlap]
  omega

/-- SimpleKnowledgeBaseBuilder._chunk_text: normalize whitespace, split
into words, emit overlapping windows. -/
def chunk_text (text : List Char) (filename : List Char) : List Chunk :=
  chunk_loop (pyWords (normalize_ws text)) filename 0 []

/-- The words of the document as the chunker sees them. -/
def chunkWords (text : List Char) : List (List Char) :=
  pyWords (normalize_ws text)

/-- Window k of the chunker over a word list: it starts at word index
k * (chunk_size - chunk_overlap) and spans at most chunk_size words. -/
def windowAt (words : List (List Char)) (k : ℕ) : List (List Char) :=
  (words.drop (k * (chunk_size - chunk_overlap))).take chunk_size

/-! ### Query router (src/utils/query_router.py) -/

/-- The performance-tracking counters of QueryRouter.__init__. -/
structure RouterStats where
  total_queries : ℕ
  rag_recommended : ℕ
  rag_skipped : ℕ
  rag_hits : ℕ
  rag_misses : ℕ
  web_only : ℕ
deriving DecidableEq, Repr

/-- The mutable state of a QueryRouter: the per-domain hit-rate table (an
association list standing for the Python dict, keys unique) and the stats
counters.  The domain_keywords table is immutable and modelled as the
global constant domain_keywords. -/
structure RouterState where
  domain_hit_rates : List (List Char × ℚ)
  stats : RouterStats
deriving DecidableEq, Repr

/-- QueryRouter.__init__ domain_keywords, in dict insertion order. -/
def domain_keywords : List (List Char × List (List Char)) :=
  [("ai_ml".toList,
     ["machine learning".toList, "artificial intelligence".toList,
      "deep learning".toList, "neural network".toList, "ai".toList, "ml".toList,
      "algorithm".toList, "model training".toList, "data science".toList,
      "nlp".toList, "computer vision".toList, "reinforcement learning".toList]),
   ("technology".toList,
     ["software".toList, "programming".toList, "code".toList,
      "development".toList, "algorithm".toList, "tech".toList, "computer".toList,
      "system".toList, "application".toList, "framework".toList, "api".toList,
      "database".toList, "architecture".toList, "devops".toList, "cloud".toList]),
   ("business".toList,
     ["business".toList, "marketing".toList, "sales".toList, "strategy".toList,
      "growth".toList, "revenue".toList, "roi".toList, "customer".toList,
      "market".toList, "brand".toList, "advertising".toList, "campaign".toList,
      "seo".toList, "content marketing".toList]),
   ("software_dev".toList,
     ["agile".toList, "scrum".toList, "testing".toList, "deployment".toList,
      "ci/cd".toList, "git".toList, "version control".toList, "clean code".toList,
      "design pattern".toList, "microservices".toList, "docker".toList,
      "kubernetes".toList])]

/-- The seeded router state of QueryRouter.__init__: all counters zero and
the default domain hit rates. -/
def init_router : RouterState :=
  { domain_hit_rates :=
      [("ai_ml".toList, 9/10), ("technology".toList, 3/4),
       ("business".toList, 7/10), ("software_dev".toList, 4/5),
       ("unknown".toList, 1/10)]
    stats := ⟨0, 0, 0, 0, 0, 0⟩ }

/-- QueryRouter._classify_domain on the lower-cased query: per-domain
substring-keyword counts, keeping domains with a positive score in table
order; Python's max over the dict returns the first key attaining the
maximal score; confidence is min(1.0, score / 3). -/
def classify_domain (query : List Char) : List Char × ℚ :=
  let domain_scores : List (List Char × ℕ) := domain_keywords.filterMap (fun p =>
    let score := p.2.countP (fun kw => pyContains query kw)
    if 0 < score then some (p.1, score) else none)
  match domain_scores with
  | [] => ("unknown".toList, 0)
  | x :: xs =>
    let best := xs.foldl (fun b p => if b.2 < p.2 then p else b) x
    (best.1, min 1 ((best.2 : ℚ) / 3))

/-- self.domain_hit_rates.get(domain, 0.1). -/
def hit_rate_get (st : RouterState) (domain : List Char) : ℚ :=
  (st.domain_hit_rates.lookup domain).getD (1/10)

/-- The recency markers of QueryRouter._should_use_rag. -/
def current_indicators : List (List Char) :=
  ["2024".toList, "2025".toList, "latest".toList, "recent".toList,
   "news".toList, "today".toList]

/-- The locality markers of QueryRouter._should_use_rag. -/
def location_indicators : List (List Char) :=
  ["nyc".toList, "new york".toList, "city".toList, "travel".toList,
   "visit".toList, "restaurant".toList]

/-- QueryRouter._should_use_rag on the lower-cased query. -/
def should_use_rag (st : RouterState) (domain : List Char) (confidence : ℚ)
    (query : List Char) : Bool :=
  if confidence < 1/5 then
    false
  else if hit_rate_get st domain < 3/10 then
    false
  else if (current_indicators.any (fun ind => pyContains query ind)) ∧ confidence < 7/10 then
    false
  else if (location_indicators.any (fun ind => pyContains query ind)) ∧
      ¬(domain = "technology".toList ∨ domain = "business".toList ∨
        domain = "ai_ml".toList) then
    false
  else
    true

/-- self.domain_hit_rates[domain], the dict indexing used by
_get_search_strategy.  Indexing a missing key raises KeyError in Python;
the source only indexes after a short-circuited membership test on domains
whose keys are always present, so the default 0 is never observable. -/
def hit_rate_idx (st : RouterState) (domain : List Char) : ℚ :=
  (st.domain_hit_rates.lookup domain).getD 0

/-- QueryRouter._get_search_strategy, returning the strategy string and the
state with the stats counter the chosen branch increments. -/
def get_search_strategy (st : RouterState) (use_rag : Bool) (domain : List Char) :
    List Char × RouterState :=
  if !use_rag then
    ("web_only".toList,
     { st with stats := { st.stats with web_only := st.stats.web_only + 1 } })
  else if (domain = "ai_ml".toList ∨ domain = "software_dev".toList) ∧
      3/4 < hit_rate_idx st domain then
    ("rag_primary".toList,
     { st with stats := { st.stats with rag_recommended := st.stats.rag_recommended + 1 } })
  else if domain = "technology".toList ∨ domain = "business".toList then
    ("rag_hybrid".toList,
     { st with stats := { st.stats with rag_recommended := st.stats.rag_recommended + 1 } })
  else
    ("rag_primary".toList,
     { st with stats := { st.stats with rag_recommended := st.stats.rag_recommended + 1 } })

/-- The routing decision dict returned by QueryRouter.analyze_query. -/
structure RoutingDecision where
  domain : List Char
  confidence : ℚ
  use_rag : Bool
  strategy : List Char
  expected_hit_rate : ℚ
deriving DecidableEq, Repr

/-- QueryRouter.analyze_query: bump total_queries, lower-case the query,
classify the domain, predict RAG usefulness, pick the strategy, and return
the decision together with the updated router state. -/
def analyze_query (st : RouterState) (query : List Char) :
    RoutingDecision × RouterState :=
  let st1 := { st with stats := { st.stats with total_queries := st.stats.total_queries + 1 } }
  let query_lower := pyLower query
  let dc := classify_domain query_lower
  let use_rag := should_use_rag st1 dc.1 dc.2 query_lower
  let sr := get_search_strategy st1 use_rag dc.1
  ({ domain := dc.1, confidence := dc.2, use_rag := use_rag, strategy := sr.1,
     expected_hit_rate := hit_rate_get st1 dc.1 }, sr.2)

/-- QueryRouter.record_rag_result: bump the hit or miss counter, and when
the domain is present in the hit-rate table multiply its rate by 1.05
clamped to at most 0.95 on success, or by 0.95 clamped to at least 0.05 on
failure.  A domain absent from the table leaves the table untouched. -/
def record_rag_result (st : RouterState) (domain : List Char) (found_results : Bool) :
    RouterState :=
  if found_results then
    { domain_hit_rates :=
        if (st.domain_hit_rates.lookup domain).isSome then
          st.domain_hit_rates.map (fun p =>
            if p.1 = domain then (p.1, min ((19 : ℚ)/20) (p.2 * (21/20))) else p)
        else st.domain_hit_rates
      stats := { st.stats with rag_hits := st.stats.rag_hits + 1 } }
  else
    { domain_hit_rates :=
        if (st.domain_hit_rates.lookup domain).isSome then
          st.domain_hit_rates.map (fun p =>
            if p.1 = domain then (p.1, max ((1 : ℚ)/20) (p.2 * (19/20))) else p)
        else st.domain_hit_rates
      stats := { st.stats with rag_misses := st.stats.rag_misses + 1 } }

/-! ### Helper lemmas about add_documents -/

lemma foldl_mkMeta_length (cs : List InChunk) (acc : List Meta) :
    (cs.foldl (fun acc c => acc ++ [mkMeta c acc.length]) acc).length =
      acc.length + cs.length := by
  induction cs generalizing acc with
  | nil => simp
  | cons c cs ih =>
    rw [List.foldl_cons, ih]
    simp only [List.length_append, List.length_cons, List.length_nil]
    omega

lemma add_documents_embeddings_length (embed : List Char → List ℚ) (st : KBState)
    (cs : List InChunk) :
    (add_documents embed st cs).embeddings.length = st.embeddings.length + cs.length := by
  cases cs with
  | nil => simp [add_documents]
  | cons c cs =>
    simp only [add_documents]
    split
    · simp_all
    · simp [List.length_append]

lemma add_documents_metadata_length (embed : List Char → List ℚ) (st : KBState)
    (cs : List InChunk) :
    (add_documents embed st cs).metadata.length = st.metadata.length + cs.length := by
  cases cs with
  | nil => simp [add_documents]
  | cons c cs =>
    simp only [add_documents]
    exact foldl_mkMeta_length _ _

/-! ### Sample concrete values used by counterexamples and witnesses -/

def sample_meta : Meta :=
  { content := "machine learning".toList, source := "sample.txt".toList,
    topic := "Artificial Intelligence".toList, chunk_id := 0, word_count := 2 }

def sample_chunk : InChunk :=
  { text := "pattern".toList, source := none, topic := none, chunk_id := none }

def sample_embed : List Char → List ℚ :=
  fun _ => [1]

/-- C6: after any sequence of add_documents calls from a state whose two
parallel arrays have equal lengths, they still have equal lengths, and each
call appends exactly one embedding vector and one metadata record per
chunk of its batch. -/
theorem c6_length_invariant (st0 : KBState)
    (batches : List ((List Char → List ℚ) × List InChunk))
    (h : st0.embeddings.length = st0.metadata.length) :
    (batches.foldl (fun s p => add_documents p.1 s p.2) st0).embeddings.length =
      (batches.foldl (fun s p => add_documents p.1 s p.2) st0).metadata.length
  ∧ ∀ (embed : List Char → List ℚ) (st : KBState) (cs : List InChunk),
      (add_documents embed st cs).embeddings.length = st.embeddings.length + cs.length
    ∧ (add_documents embed st cs).metadata.length = st.metadata.length + cs.length := by
  refine ⟨?_, fun embed st cs =>
    ⟨add_documents_embeddings_length embed st cs,
     add_documents_metadata_length embed st cs⟩⟩
  induction batches generalizing st0 with
  | nil => exact h
  | cons b bs ih =>
    simp only [List.foldl_cons]
    exact ih _ (by
      rw [add_documents_embeddings_length, add_documents_metadata_length, h])

/-- C6 witness: the invariant instantiated at the freshly created empty
index and a single one-chunk batch. -/
theorem c6_length_invariant_witness :
    (KBState.mk [] []).embeddings.length = (KBState.mk [] []).metadata.length
  ∧ ((([(sample_embed, [sample_chunk])] :
        List ((List Char → List ℚ) × List InChunk)).foldl
          (fun s p => add_documents p.1 s p.2) (KBState.mk [] [])).embeddings.length =
      (([(sample_embed, [sample_chunk])] :
        List ((List Char → List ℚ) × List InChunk)).foldl
          (fun s p => add_documents p.1 s p.2) (KBState.mk [] [])).metadata.length
    ∧ ∀ (embed : List Char → List ℚ) (st : KBState) (cs : List InChunk),
        (add_documents embed st cs).embeddings.length = st.embeddings.length + cs.length
      ∧ (add_documents embed st cs).metadata.length = st.metadata.length + cs.length) :=
  ⟨rfl, c6_length_invariant (KBState.mk [] []) [(sample_embed, [sample_chunk])] rfl⟩

/-- C2 counterexample: from a state whose arrays already disagree (no
embedding vector, one metadata record), add_documents appends its batch and
returns a state whose array lengths still disagree, raising nothing: the
source method has no length check, and no IndexCorruptionError exists
anywhere in the repository. -/
theorem c2_no_corruption_check_counterexample :
    (add_documents sample_embed (KBState.mk [] [sample_meta])
        [sample_chunk]).embeddings.length = 1
  ∧ (add_documents sample_embed (KBState.mk [] [sample_meta])
        [sample_chunk]).metadata.length = 2
  ∧ (add_documents sample_embed (KBState.mk [] [sample_meta])
        [sample_chunk]).embeddings.length ≠
      (add_documents sample_embed (KBState.mk [] [sample_meta])
        [sample_chunk]).metadata.length := by
  refine ⟨rfl, rfl, ?_⟩
  intro hcontra
  rw [add_documents_embeddings_length, add_documents_metadata_length] at hcontra
  simp [sample_meta] at hcontra

/-- C2 as amended: add_documents never fails — it is a total function on
states, mirroring the absence of any raise in the source — and it appends
exactly one vector and one metadata record per chunk, so a pre-existing
length mismatch between the two arrays survives the append silently
instead of being surfaced. -/
theorem c2_add_documents_total_no_length_check (embed : List Char → List ℚ)
    (st : KBState) (cs : List InChunk) :
    (add_documents embed st cs).embeddings.length = st.embeddings.length + cs.length
  ∧ (add_documents embed st cs).metadata.length = st.metadata.length + cs.length
  ∧ (st.embeddings.length ≠ st.metadata.length →
      (add_documents embed st cs).embeddings.length ≠
        (add_documents embed st cs).metadata.length) := by
  refine ⟨add_documents_embeddings_length embed st cs,
    add_documents_metadata_length embed st cs, fun hne => ?_⟩
  rw [add_documents_embeddings_length, add_documents_metadata_length]
  omega

/-- C2 amended witness: the mismatch-persistence consequence discharged at
the concrete mismatched state of the counterexample scenario. -/
theorem c2_add_documents_total_no_length_check_witness :
    (add_documents sample_embed (KBState.mk [] [sample_meta])
        [sample_chunk]).embeddings.length ≠
      (add_documents sample_embed (KBState.mk [] [sample_meta])
        [sample_chunk]).metadata.length :=
  (c2_add_documents_total_no_length_check sample_embed
      (KBState.mk [] [sample_meta]) [sample_chunk]).2.2 (by simp [sample_meta])

/-! ### Helper lemmas about the hit-rate table -/

lemma lookup_map_update (l : List (List Char × ℚ)) (d : List Char) (f : ℚ → ℚ) :
    (l.map (fun p => if p.1 = d then (p.1, f p.2) else p)).lookup d =
      (l.lookup d).map f := by
  induction l with
  | nil => simp
  | cons p l ih =>
    obtain ⟨k, v⟩ := p
    by_cases hkd : k = d
    · subst hkd
      rw [List.map_cons,
        show (if (k, v).1 = k then ((k, v).1, f (k, v).2) else (k, v)) = (k, f v) from by simp]
      simp [List.lookup]
    · have hbeq : (d == k) = false := by
        simp only [beq_eq_false_iff_ne, ne_eq]
        exact fun hc => hkd hc.symm
      rw [List.map_cons,
        show (if (k, v).1 = d then ((k, v).1, f (k, v).2) else (k, v)) = (k, v) from by simp [hkd]]
      simp only [List.lookup, hbeq, ih]

/-- The hit-rate table written by record_rag_result on a successful
outcome, read off the structure literal. -/
lemma record_table_true (st : RouterState) (d : List Char) :
    (record_rag_result st d true).domain_hit_rates =
      (if (st.domain_hit_rates.lookup d).isSome then
        st.domain_hit_rates.map (fun p =>
          if p.1 = d then (p.1, min ((19 : ℚ)/20) (p.2 * (21/20))) else p)
       else st.domain_hit_rates) := rfl

/-- The hit-rate table written by record_rag_result on a failed outcome. -/
lemma record_table_false (st : RouterState) (d : List Char) :
    (record_rag_result st d false).domain_hit_rates =
      (if (st.domain_hit_rates.lookup d).isSome then
        st.domain_hit_rates.map (fun p =>
          if p.1 = d then (p.1, max ((1 : ℚ)/20) (p.2 * (19/20))) else p)
       else st.domain_hit_rates) := rfl

lemma record_hit_rates_found (st : RouterState) (d : List Char) (r : ℚ)
    (h : st.domain_hit_rates.lookup d = some r) :
    (record_rag_result st d true).domain_hit_rates.lookup d =
      some (min ((19 : ℚ)/20) (r * (21/20))) := by
  rw [record_table_true, if_pos (by rw [h]; rfl),
    lookup_map_update st.domain_hit_rates d (fun x => min ((19 : ℚ)/20) (x * (21/20))), h]
  rfl

lemma record_hit_rates_missed (st : RouterState) (d : List Char) (r : ℚ)
    (h : st.domain_hit_rates.lookup d = some r) :
    (record_rag_result st d false).domain_hit_rates.lookup d =
      some (max ((1 : ℚ)/20) (r * (19/20))) := by
  rw [record_table_false, if_pos (by rw [h]; rfl),
    lookup_map_update st.domain_hit_rates d (fun x => max ((1 : ℚ)/20) (x * (19/20))), h]
  rfl

lemma record_preserves_range (st : RouterState) (d : List Char) (found : Bool)
    (h : ∀ p ∈ st.domain_hit_rates, 1/20 ≤ p.2 ∧ p.2 ≤ 19/20) :
    ∀ p ∈ (record_rag_result st d found).domain_hit_rates,
      1/20 ≤ p.2 ∧ p.2 ≤ 19/20 := by
  intro p hp
  cases found
  · rw [record_table_false] at hp
    revert hp
    split
    · intro hp
      rcases List.mem_map.mp hp with ⟨q, hq, hqp⟩
      rcases h q hq with ⟨hq1, hq2⟩
      by_cases hqd : q.1 = d
      · rw [if_pos hqd] at hqp
        subst hqp
        refine ⟨le_max_left _ _, max_le (by norm_num) (by nlinarith)⟩
      · rw [if_neg hqd] at hqp
        subst hqp
        exact ⟨hq1, hq2⟩
    · intro hp
      exact h p hp
  · rw [record_table_true] at hp
    revert hp
    split
    · intro hp
      rcases List.mem_map.mp hp with ⟨q, hq, hqp⟩
      rcases h q hq with ⟨hq1, hq2⟩
      by_cases hqd : q.1 = d
      · rw [if_pos hqd] at hqp
        subst hqp
        refine ⟨le_min (by norm_num) (by nlinarith), min_le_left _ _⟩
      · rw [if_neg hqd] at hqp
        subst hqp
        exact ⟨hq1, hq2⟩
    · intro hp
      exact h p hp

lemma init_router_range :
    ∀ p ∈ init_router.domain_hit_rates, 1/20 ≤ p.2 ∧ p.2 ≤ 19/20 := by
  intro p hp
  simp only [init_router, List.mem_cons, List.not_mem_nil, or_false] at hp
  rcases hp with h | h | h | h | h <;> subst h <;> constructor <;> norm_num

/-- C10: recording an outcome for a domain that is not a key of the
hit-rate table leaves the whole table unchanged (no entry is created or
modified, and nothing is raised); only the hit or miss counter moves. -/
theorem c10_record_unknown_domain_frame (st : RouterState) (d : List Char)
    (found : Bool) (h : st.domain_hit_rates.lookup d = none) :
    (record_rag_result st d found).domain_hit_rates = st.domain_hit_rates
  ∧ (record_rag_result st d found).stats =
      (if found then { st.stats with rag_hits := st.stats.rag_hits + 1 }
       else { st.stats with rag_misses := st.stats.rag_misses + 1 }) := by
  cases found <;> simp [record_rag_result, h]

/-- C10 witness: recording against the seeded router for a domain name
absent from the table. -/
theorem c10_record_unknown_domain_frame_witness :
    init_router.domain_hit_rates.lookup "health".toList = none
  ∧ ((record_rag_result init_router "health".toList true).domain_hit_rates =
        init_router.domain_hit_rates
    ∧ (record_rag_result init_router "health".toList true).stats =
        (if true then
          { init_router.stats with rag_hits := init_router.stats.rag_hits + 1 }
         else
          { init_router.stats with rag_misses := init_router.stats.rag_misses + 1 })) :=
  ⟨rfl, c10_record_unknown_domain_frame init_router "health".toList true rfl⟩

/-- C4: for a domain present in the table, a successful outcome replaces
its rate r by min(0.95, r * 1.05) — strictly increasing unless r is already
at the 0.95 ceiling — and a failed outcome replaces it by
max(0.05, r * 0.95) — strictly decreasing unless r is at the 0.05 floor —
and both updates stay inside [0.05, 0.95]; moreover every table produced
from the seeded router by any sequence of record_rag_result calls has all
its rates inside [0.05, 0.95]. -/
theorem c4_record_outcome_clamped_update (st : RouterState) (d : List Char) (r : ℚ)
    (h : st.domain_hit_rates.lookup d = some r)
    (h1 : 1/20 ≤ r) (h2 : r ≤ 19/20) :
    (record_rag_result st d true).domain_hit_rates.lookup d =
      some (min ((19 : ℚ)/20) (r * (21/20)))
  ∧ (record_rag_result st d false).domain_hit_rates.lookup d =
      some (max ((1 : ℚ)/20) (r * (19/20)))
  ∧ (r < 19/20 → r < min ((19 : ℚ)/20) (r * (21/20)))
  ∧ (r = 19/20 → min ((19 : ℚ)/20) (r * (21/20)) = 19/20)
  ∧ (1/20 < r → max ((1 : ℚ)/20) (r * (19/20)) < r)
  ∧ (r = 1/20 → max ((1 : ℚ)/20) (r * (19/20)) = 1/20)
  ∧ 1/20 ≤ min ((19 : ℚ)/20) (r * (21/20)) ∧ min ((19 : ℚ)/20) (r * (21/20)) ≤ 19/20
  ∧ 1/20 ≤ max ((1 : ℚ)/20) (r * (19/20)) ∧ max ((1 : ℚ)/20) (r * (19/20)) ≤ 19/20
  ∧ ∀ ops : List (List Char × Bool),
      ∀ p ∈ (ops.foldl (fun s op => record_rag_result s op.1 op.2)
              init_router).domain_hit_rates,
        1/20 ≤ p.2 ∧ p.2 ≤ 19/20 := by
  refine ⟨record_hit_rates_found st d r h, record_hit_rates_missed st d r h,
    fun hlt => lt_min (by linarith) (by nlinarith),
    fun heq => by rw [heq]; rw [min_eq_left (by norm_num)],
    fun hgt => max_lt (by linarith) (by nlinarith),
    fun heq => by rw [heq]; rw [max_eq_left (by norm_num)],
    le_min (by norm_num) (by nlinarith), min_le_left _ _,
    le_max_left _ _, max_le (by norm_num) (by nlinarith), ?_⟩
  intro ops
  have hgen : ∀ (ops : List (List Char × Bool)) (s : RouterState),
      (∀ p ∈ s.domain_hit_rates, 1/20 ≤ p.2 ∧ p.2 ≤ 19/20) →
      ∀ p ∈ (ops.foldl (fun s op => record_rag_result s op.1 op.2)
              s).domain_hit_rates, 1/20 ≤ p.2 ∧ p.2 ≤ 19/20 := by
    intro ops
    induction ops with
    | nil => intro s hs; exact hs
    | cons op ops ih =>
      intro s hs
      exact ih _ (record_preserves_range s op.1 op.2 hs)
  exact hgen ops init_router init_router_range

/-- C4 witness: the update law instantiated at the seeded router and the
ai_ml domain, whose seeded rate is 0.9. -/
theorem c4_record_outcome_clamped_update_witness :
    init_router.domain_hit_rates.lookup "ai_ml".toList = some (9/10)
  ∧ (1/20 ≤ (9 : ℚ)/10 ∧ (9 : ℚ)/10 ≤ 19/20)
  ∧ (record_rag_result init_router "ai_ml".toList true).domain_hit_rates.lookup
      "ai_ml".toList = some (min ((19 : ℚ)/20) ((9/10) * (21/20))) :=
  ⟨rfl, ⟨by norm_num, by norm_num⟩,
   (c4_record_outcome_clamped_update init_router "ai_ml".toList (9/10) rfl
      (by norm_num) (by norm_num)).1⟩

/-! ### Helper lemmas about the domain classifier -/

lemma foldl_max_mem (xs : List (List Char × ℕ)) (x : List Char × ℕ) :
    xs.foldl (fun b p => if b.2 < p.2 then p else b) x ∈ x :: xs := by
  induction xs generalizing x with
  | nil => simp
  | cons p xs ih =>
    rw [List.foldl_cons]
    rcases List.mem_cons.mp (ih (if x.2 < p.2 then p else x)) with h | h
    · rw [h]
      split
      · simp
      · simp
    · simp [List.mem_cons, h]

lemma classify_scores_mem (q : List Char) (p : List Char × ℕ)
    (hp : p ∈ domain_keywords.filterMap (fun p =>
      let score := p.2.countP (fun kw => pyContains q kw)
      if 0 < score then some (p.1, score) else none)) :
    0 < p.2 ∧ p.1 ≠ "unknown".toList := by
  rcases List.mem_filterMap.mp hp with ⟨a, ha, hfa⟩
  dsimp only at hfa
  by_cases h0 : 0 < a.2.countP (fun kw => pyContains q kw)
  · rw [if_pos h0] at hfa
    have hpa : p = (a.1, a.2.countP (fun kw => pyContains q kw)) :=
      (Option.some_injective _ hfa).symm
    subst hpa
    refine ⟨h0, ?_⟩
    simp only [domain_keywords, List.mem_cons, List.not_mem_nil, or_false] at ha
    rcases ha with h | h | h | h <;> subst h <;> dsimp only <;> decide
  · rw [if_neg h0] at hfa
    exact absurd hfa (by simp)

/-- C8: the domain classifier returns either the unknown domain with
confidence exactly 0, or a known domain with confidence at least 1/3 —
confidence is never strictly between 0 and 1/3 — so the router's
confidence < 0.2 rejection test fires exactly on the unknown domain;
the unknown domain's seeded hit rate 0.1 is below the 0.3 hit-rate
rejection threshold as well. -/
theorem c8_classifier_confidence_gap (q : List Char) :
    (((classify_domain q).1 = "unknown".toList ∧ (classify_domain q).2 = 0)
      ∨ ((classify_domain q).1 ≠ "unknown".toList ∧ 1/3 ≤ (classify_domain q).2))
  ∧ ((classify_domain q).2 < 1/5 ↔ (classify_domain q).1 = "unknown".toList)
  ∧ hit_rate_get init_router "unknown".toList = 1/10
  ∧ ((1 : ℚ)/10 < 3/10) := by
  have hmain :
      ((classify_domain q).1 = "unknown".toList ∧ (classify_domain q).2 = 0)
      ∨ ((classify_domain q).1 ≠ "unknown".toList ∧ 1/3 ≤ (classify_domain q).2) := by
    cases hsc : domain_keywords.filterMap (fun p =>
        let score := p.2.countP (fun kw => pyContains q kw)
        if 0 < score then some (p.1, score) else none) with
    | nil =>
      left
      have hval : classify_domain q = ("unknown".toList, 0) := by
        unfold classify_domain
        rw [hsc]
      rw [hval]
      exact ⟨rfl, rfl⟩
    | cons x xs =>
      right
      have hbest : (xs.foldl (fun b p => if b.2 < p.2 then p else b) x) ∈ x :: xs :=
        foldl_max_mem xs x
      have hbest2 : (xs.foldl (fun b p => if b.2 < p.2 then p else b) x) ∈
          domain_keywords.filterMap (fun p =>
            let score := p.2.countP (fun kw => pyContains q kw)
            if 0 < score then some (p.1, score) else none) := by
        rw [hsc]
        exact hbest
      rcases classify_scores_mem q _ hbest2 with ⟨hpos, hne⟩
      have hval : classify_domain q =
          ((xs.foldl (fun b p => if b.2 < p.2 then p else b) x).1,
            min 1 (((xs.foldl (fun b p => if b.2 < p.2 then p else b) x).2 : ℚ) / 3)) := by
        unfold classify_domain
        rw [hsc]
      rw [hval]
      refine ⟨hne, le_min (by norm_num) ?_⟩
      have hcast : (1 : ℚ) ≤ ((xs.foldl (fun b p => if b.2 < p.2 then p else b) x).2 : ℚ) := by
        exact_mod_cast hpos
      linarith
  refine ⟨hmain, ?_, rfl, by norm_num⟩
  rcases hmain with ⟨hd, hc⟩ | ⟨hd, hc⟩
  · rw [hd, hc]
    simp only [iff_true]
    norm_num
  · constructor
    · intro hlt
      exact absurd hlt (by linarith)
    · intro hdu
      exact absurd hdu hd

/-! ### Helper lemmas about the search strategy -/

lemma get_search_strategy_true (st : RouterState) (d : List Char) :
    ((get_search_strategy st true d).1 = "rag_hybrid".toList ↔
      (d = "technology".toList ∨ d = "business".toList))
  ∧ ((get_search_strategy st true d).1 = "rag_primary".toList ↔
      ¬(d = "technology".toList ∨ d = "business".toList)) := by
  unfold get_search_strategy
  split_ifs with h1 h2 h3
  · simp at h1
  · have hne : ¬(d = "technology".toList ∨ d = "business".toList) := by
      rcases h2.1 with hd | hd <;> subst hd <;> decide
    dsimp only
    exact ⟨⟨fun hc => absurd hc (by decide), fun hc => absurd hc hne⟩,
      ⟨fun _ => hne, fun _ => rfl⟩⟩
  · dsimp only
    exact ⟨⟨fun _ => h3, fun _ => rfl⟩,
      ⟨fun hc => absurd hc (by decide), fun hc => absurd h3 hc⟩⟩
  · dsimp only
    exact ⟨⟨fun hc => absurd hc (by decide), fun hc => absurd hc h3⟩,
      ⟨fun _ => h3, fun _ => rfl⟩⟩

/-- C3 as amended: whenever the routing decision has use_rag true, the
strategy depends only on the classified domain — rag_hybrid exactly for
the technology and business domains, rag_primary for every other domain —
and not on the current hit rate: an ai_ml or software_dev domain whose
rate has decayed to 0.75 or below still gets rag_primary through the final
fallthrough branch of _get_search_strategy. -/
theorem c3_strategy_depends_only_on_domain (st : RouterState) (q : List Char)
    (h : (analyze_query st q).1.use_rag = true) :
    ((analyze_query st q).1.strategy = "rag_hybrid".toList ↔
      ((analyze_query st q).1.domain = "technology".toList ∨
       (analyze_query st q).1.domain = "business".toList))
  ∧ ((analyze_query st q).1.strategy = "rag_primary".toList ↔
      ¬((analyze_query st q).1.domain = "technology".toList ∨
        (analyze_query st q).1.domain = "business".toList)) := by
  have hs : (analyze_query st q).1.strategy =
      (get_search_strategy
        { st with stats := { st.stats with total_queries := st.stats.total_queries + 1 } }
        ((analyze_query st q).1.use_rag) ((analyze_query st q).1.domain)).1 := rfl
  rw [hs, h]
  exact get_search_strategy_true _ _

lemma should_use_rag_true_of (st : RouterState) (d : List Char) (conf : ℚ)
    (q : List Char) (h1 : ¬conf < 1/5) (h2 : ¬hit_rate_get st d < 3/10)
    (h3 : (current_indicators.any (fun ind => pyContains q ind)) = false)
    (h4 : (location_indicators.any (fun ind => pyContains q ind)) = false) :
    should_use_rag st d conf q = true := by
  unfold should_use_rag
  rw [if_neg h1, if_neg h2,
    if_neg (fun hc => absurd hc.1 (by simp [h3])),
    if_neg (fun hc => absurd hc.1 (by simp [h4]))]

/-- The router state after two failed outcomes recorded for software_dev:
its software_dev hit rate has decayed from the seeded 0.8 to
0.8 * 0.95 * 0.95 = 0.722, below the 0.75 strategy threshold. -/
def two_misses_router : RouterState :=
  record_rag_result (record_rag_result init_router "software_dev".toList false)
    "software_dev".toList false

lemma two_misses_lookup :
    two_misses_router.domain_hit_rates.lookup "software_dev".toList =
      some (361/500) := by
  have hl0 : init_router.domain_hit_rates.lookup "software_dev".toList =
      some (4/5) := rfl
  have hl1 : (record_rag_result init_router "software_dev".toList
        false).domain_hit_rates.lookup "software_dev".toList =
      some (max ((1 : ℚ)/20) ((4/5) * (19/20))) :=
    record_hit_rates_missed _ _ _ hl0
  have hv1 : max ((1 : ℚ)/20) ((4/5) * (19/20)) = 19/25 := by
    rw [max_eq_right (by norm_num)]
    norm_num
  rw [hv1] at hl1
  have hl2 : (record_rag_result (record_rag_result init_router
        "software_dev".toList false) "software_dev".toList
        false).domain_hit_rates.lookup "software_dev".toList =
      some (max ((1 : ℚ)/20) ((19/25) * (19/20))) :=
    record_hit_rates_missed _ _ _ hl1
  have hv2 : max ((1 : ℚ)/20) ((19/25) * (19/20)) = 361/500 := by
    rw [max_eq_right (by norm_num)]
    norm_num
  rw [hv2] at hl2
  exact hl2

lemma scrum_classify :
    classify_domain (pyLower "scrum".toList) =
      ("software_dev".toList, min 1 (((1 : ℕ) : ℚ) / 3)) := rfl

lemma scrum_use_rag :
    (analyze_query two_misses_router "scrum".toList).1.use_rag = true := by
  have hrfl : (analyze_query two_misses_router "scrum".toList).1.use_rag =
      should_use_rag
        { two_misses_router with stats :=
            { two_misses_router.stats with
              total_queries := two_misses_router.stats.total_queries + 1 } }
        (classify_domain (pyLower "scrum".toList)).1
        (classify_domain (pyLower "scrum".toList)).2
        (pyLower "scrum".toList) := rfl
  rw [hrfl, scrum_classify]
  dsimp only
  refine should_use_rag_true_of _ _ _ _ ?_ ?_ (by decide) (by decide)
  · rw [Nat.cast_one, min_eq_right (by norm_num : (1 : ℚ)/3 ≤ 1)]
    norm_num
  · have hget : hit_rate_get
        { two_misses_router with stats :=
            { two_misses_router.stats with
              total_queries := two_misses_router.stats.total_queries + 1 } }
        "software_dev".toList = 361/500 := by
      unfold hit_rate_get
      rw [show ({ two_misses_router with stats :=
            { two_misses_router.stats with
              total_queries := two_misses_router.stats.total_queries + 1 }
          } : RouterState).domain_hit_rates = two_misses_router.domain_hit_rates
        from rfl]
      rw [two_misses_lookup]
      rfl
    rw [hget]
    norm_num

lemma scrum_domain :
    (analyze_query two_misses_router "scrum".toList).1.domain =
      "software_dev".toList := by
  rw [show (analyze_query two_misses_router "scrum".toList).1.domain =
      (classify_domain (pyLower "scrum".toList)).1 from rfl, scrum_classify]

lemma scrum_strategy :
    (analyze_query two_misses_router "scrum".toList).1.strategy =
      "rag_primary".toList := by
  have hs : (analyze_query two_misses_router "scrum".toList).1.strategy =
      (get_search_strategy
        { two_misses_router with stats :=
            { two_misses_router.stats with
              total_queries := two_misses_router.stats.total_queries + 1 } }
        ((analyze_query two_misses_router "scrum".toList).1.use_rag)
        ((analyze_query two_misses_router "scrum".toList).1.domain)).1 := rfl
  rw [hs, scrum_use_rag, scrum_domain]
  have hidx : hit_rate_idx
      { two_misses_router with stats :=
          { two_misses_router.stats with
            total_queries := two_misses_router.stats.total_queries + 1 } }
      "software_dev".toList = 361/500 := by
    unfold hit_rate_idx
    rw [show ({ two_misses_router with stats :=
          { two_misses_router.stats with
            total_queries := two_misses_router.stats.total_queries + 1 }
        } : RouterState).domain_hit_rates = two_misses_router.domain_hit_rates
      from rfl]
    rw [two_misses_lookup]
    rfl
  unfold get_search_strategy
  rw [if_neg (by simp),
    if_neg (fun hc => absurd (hidx ▸ hc.2) (by norm_num)),
    if_neg (by decide)]

/-- C3 counterexample: in the reachable router state where software_dev
has seen two failed outcomes, its hit rate is 0.722, not above 0.75, yet
the query scrum is routed with use_rag true and strategy rag_primary — the
claimed strategy would be hybrid because the rate is not above 0.75. -/
theorem c3_strategy_counterexample :
    (analyze_query two_misses_router "scrum".toList).1.use_rag = true
  ∧ (analyze_query two_misses_router "scrum".toList).1.domain =
      "software_dev".toList
  ∧ hit_rate_get two_misses_router
      ((analyze_query two_misses_router "scrum".toList).1.domain) ≤ 3/4
  ∧ (analyze_query two_misses_router "scrum".toList).1.strategy =
      "rag_primary".toList
  ∧ (analyze_query two_misses_router "scrum".toList).1.strategy ≠
      "rag_hybrid".toList := by
  refine ⟨scrum_use_rag, scrum_domain, ?_, scrum_strategy, ?_⟩
  · rw [scrum_domain]
    unfold hit_rate_get
    rw [two_misses_lookup]
    norm_num
  · rw [scrum_strategy]
    decide

/-- C3 amended witness: the domain-only strategy law discharged at the
counterexample state and query, whose decision has use_rag true. -/
theorem c3_strategy_depends_only_on_domain_witness :
    (analyze_query two_misses_router "scrum".toList).1.use_rag = true
  ∧ (((analyze_query two_misses_router "scrum".toList).1.strategy =
        "rag_hybrid".toList ↔
      ((analyze_query two_misses_router "scrum".toList).1.domain =
          "technology".toList ∨
       (analyze_query two_misses_router "scrum".toList).1.domain =
          "business".toList))
    ∧ ((analyze_query two_misses_router "scrum".toList).1.strategy =
        "rag_primary".toList ↔
      ¬((analyze_query two_misses_router "scrum".toList).1.domain =
          "technology".toList ∨
        (analyze_query two_misses_router "scrum".toList).1.domain =
          "business".toList))) :=
  ⟨scrum_use_rag,
   c3_strategy_depends_only_on_domain two_misses_router "scrum".toList scrum_use_rag⟩

/-! ### Helper lemmas about search -/

lemma score_result_eq_some {metadata : List Meta} {sims : List ℚ} {query : List Char}
    {minr : ℚ} {idx : ℕ} {r : SearchResult}
    (h : score_result metadata sims query minr idx = some r) :
    ∃ hlt : idx < metadata.length,
      r.meta = metadata.get ⟨idx, hlt⟩
    ∧ r.semantic_score = sims.getD idx 0
    ∧ minr ≤ r.semantic_score
    ∧ r.keyword_score = min ((1 : ℚ)/5)
        ((((pyWords (pyLower query)).dedup.countP
            (fun t => pyContains (pyLower r.meta.content) t) : ℕ) : ℚ) * (1/20))
    ∧ r.relevance_score = min 1 (r.semantic_score + r.keyword_score) := by
  unfold score_result at h
  split at h
  case isTrue hlt =>
    dsimp only at h
    split at h
    case isTrue hsim => exact absurd h (by simp)
    case isFalse hsim =>
      refine ⟨hlt, ?_⟩
      have hr : (⟨metadata.get ⟨idx, hlt⟩,
          min 1 (sims.getD idx 0 + min ((1 : ℚ)/5)
            ((((pyWords (pyLower query)).dedup.countP
                (fun t => pyContains (pyLower (metadata.get ⟨idx, hlt⟩).content) t) : ℕ) : ℚ)
              * (1/20))),
          sims.getD idx 0,
          min ((1 : ℚ)/5)
            ((((pyWords (pyLower query)).dedup.countP
                (fun t => pyContains (pyLower (metadata.get ⟨idx, hlt⟩).content) t) : ℕ) : ℚ)
              * (1/20))⟩ : SearchResult) = r :=
        Option.some_injective _ h
      subst hr
      exact ⟨rfl, rfl, not_lt.mp hsim, rfl, rfl⟩
  case isFalse hge => exact absurd h (by simp)

lemma mem_search {metadata : List Meta} {sims : List ℚ} {query : List Char}
    {n : ℕ} {minr : ℚ} {r : SearchResult}
    (h : r ∈ search metadata sims query n minr) :
    ∃ idx, score_result metadata sims query minr idx = some r := by
  unfold search at h
  split at h
  · exact absurd h (List.not_mem_nil r)
  · dsimp only at h
    have h2 : r ∈ ((argsort_desc sims).take (n * 2)).filterMap
        (score_result metadata sims query minr) :=
      (List.mergeSort_perm _ _).mem_iff.mp (List.take_subset _ _ h)
    rcases List.mem_filterMap.mp h2 with ⟨idx, _, hs⟩
    exact ⟨idx, hs⟩

/-- C5: with a nonnegative relevance floor, search returns at most
n_results results, in non-increasing order of relevance_score, and every
result carries relevance_score = min(1, semantic_score + keyword_score)
with keyword_score = min(0.2, 0.05 * matched-term count); consequently all
relevance scores lie in [0, 1]. -/
theorem c5_search_ranked_and_bounded (metadata : List Meta) (sims : List ℚ)
    (query : List Char) (n : ℕ) (minr : ℚ) (hmr : 0 ≤ minr) :
    (search metadata sims query n minr).length ≤ n
  ∧ List.Pairwise (fun a b => b.relevance_score ≤ a.relevance_score)
      (search metadata sims query n minr)
  ∧ ∀ r ∈ search metadata sims query n minr,
      r.relevance_score = min 1 (r.semantic_score + r.keyword_score)
    ∧ r.keyword_score = min ((1 : ℚ)/5)
        ((((pyWords (pyLower query)).dedup.countP
            (fun t => pyContains (pyLower r.meta.content) t) : ℕ) : ℚ) * (1/20))
    ∧ 0 ≤ r.relevance_score ∧ r.relevance_score ≤ 1 := by
  refine ⟨?_, ?_, ?_⟩
  · unfold search
    split
    · simp
    · exact List.length_take_le _ _
  · unfold search
    split
    · simp
    · dsimp only
      refine List.Pairwise.imp (fun hab => of_decide_eq_true hab)
        (List.Pairwise.sublist (List.take_sublist _ _)
          (List.sorted_mergeSort ?_ ?_ _))
      · intro a b c hab hbc
        simp only [decide_eq_true_eq] at *
        linarith
      · intro a b
        simp only [Bool.or_eq_true, decide_eq_true_eq]
        exact le_total _ _
  · intro r hr
    obtain ⟨idx, hidx⟩ := mem_search hr
    obtain ⟨hlt, hmeta, hsem, hminr, hkw, hrel⟩ := score_result_eq_some hidx
    have hsem0 : 0 ≤ r.semantic_score := hmr.trans hminr
    have hkw0 : 0 ≤ r.keyword_score := by
      rw [hkw]
      exact le_min (by norm_num) (by positivity)
    refine ⟨hrel, hkw, ?_, ?_⟩
    · rw [hrel]
      exact le_min (by norm_num) (by linarith)
    · rw [hrel]
      exact min_le_left _ _

/-- C5 witness: the ranking and bound law discharged at a one-chunk index
with similarity 1/2 and the default relevance floor 0.3. -/
theorem c5_search_ranked_and_bounded_witness :
    (0 : ℚ) ≤ 3/10
  ∧ ((search [sample_meta] [1/2] "data".toList 5 (3/10)).length ≤ 5
    ∧ List.Pairwise (fun a b => b.relevance_score ≤ a.relevance_score)
        (search [sample_meta] [1/2] "data".toList 5 (3/10))
    ∧ ∀ r ∈ search [sample_meta] [1/2] "data".toList 5 (3/10),
        r.relevance_score = min 1 (r.semantic_score + r.keyword_score)
      ∧ r.keyword_score = min ((1 : ℚ)/5)
          ((((pyWords (pyLower "data".toList)).dedup.countP
              (fun t => pyContains (pyLower r.meta.content) t) : ℕ) : ℚ) * (1/20))
      ∧ 0 ≤ r.relevance_score ∧ r.relevance_score ≤ 1) :=
  ⟨by norm_num,
   c5_search_ranked_and_bounded [sample_meta] [1/2] "data".toList 5 (3/10) (by norm_num)⟩

/-- C9: search leaves the index state unchanged — the embeddings array and
metadata list after the call are the ones before it — and every returned
result is a copy of a stored metadata record (annotating results never
mutates the store). -/
theorem c9_search_leaves_state_unchanged (sim_fn : List Char → List (List ℚ) → List ℚ)
    (st : KBState) (q : List Char) (n : ℕ) (minr : ℚ) :
    (search_state sim_fn st q n minr).2.embeddings = st.embeddings
  ∧ (search_state sim_fn st q n minr).2.metadata = st.metadata
  ∧ ∀ r ∈ (search_state sim_fn st q n minr).1, r.meta ∈ st.metadata := by
  refine ⟨rfl, rfl, fun r hr => ?_⟩
  obtain ⟨idx, hidx⟩ := mem_search
    (show r ∈ search st.metadata (sim_fn q st.embeddings) q n minr from hr)
  obtain ⟨hlt, hmeta, _⟩ := score_result_eq_some hidx
  rw [hmeta]
  exact List.get_mem _ _ _

/-! ### C1: empty index versus empty query -/

lemma mergeSort_single {α : Type} (le : α → α → Bool) (a : α) :
    [a].mergeSort le = [a] :=
  List.perm_singleton.mp (List.mergeSort_perm [a] le)

/-- C1 as amended: search against a zero-chunk index returns [] for every
query, and being a total function it raises nothing; the empty-query half
of the original claim is refuted separately. -/
theorem c1_empty_index_returns_nothing (metadata : List Meta) (sims : List ℚ)
    (query : List Char) (n : ℕ) (minr : ℚ) (h : metadata = []) :
    search metadata sims query n minr = [] := by
  subst h
  rfl

/-- C1 amended witness: the empty-index law discharged at the freshly
created empty index and the empty query. -/
theorem c1_empty_index_returns_nothing_witness :
    ([] : List Meta) = []
  ∧ search [] [1] [] 5 (3/10) = [] :=
  ⟨rfl, c1_empty_index_returns_nothing [] [1] [] 5 (3/10) rfl⟩

lemma search_singleton_full_sim :
    search [sample_meta] [(1 : ℚ)] [] 5 (3/10) =
      [⟨sample_meta, 1, 1, 0⟩] := by
  have hargsort : argsort_desc [(1 : ℚ)] = [0] := by
    unfold argsort_desc
    rw [show List.range ([(1 : ℚ)].length) = [0] from rfl, mergeSort_single]
    rfl
  have hscore : score_result [sample_meta] [(1 : ℚ)] [] (3/10) 0 =
      some ⟨sample_meta, 1, 1, 0⟩ := by
    unfold score_result
    rw [dif_pos (by simp : (0 : ℕ) < ([sample_meta] : List Meta).length)]
    dsimp only
    rw [if_neg (by norm_num [List.getD] : ¬[(1 : ℚ)].getD 0 0 < 3/10)]
    have hterms : (pyWords (pyLower ([] : List Char))).dedup = [] := by
      simp [pyWords, pyLower]
    rw [hterms]
    simp [min_eq_right, List.getD]
  unfold search
  rw [if_neg (by simp)]
  dsimp only
  rw [hargsort, show ([0] : List ℕ).take (5 * 2) = [0] from rfl,
    show List.filterMap (score_result [sample_meta] [(1 : ℚ)] [] (3/10)) [0] =
      [⟨sample_meta, 1, 1, 0⟩] from by rw [List.filterMap_cons, hscore]; rfl,
    mergeSort_single]
  rfl

/-- C1 counterexample: against a one-chunk index whose stored vector the
(injected) embedder maps the empty query onto with cosine similarity 1 —
realizable by an embedding function that sends every text to the same unit
vector — search on the empty query returns a result, not []. -/
theorem c1_empty_query_counterexample :
    search [sample_meta] [(1 : ℚ)] [] 5 (3/10) ≠ [] := by
  rw [search_singleton_full_sim]
  simp

/-! ### Helper lemmas about whitespace splitting and the chunker -/

/-- Every word produced by pyWords is nonempty and whitespace-free. -/
lemma pyWords_clean (cs : List Char) :
    ∀ w ∈ pyWords cs, w ≠ [] ∧ ∀ c ∈ w, c.isWhitespace = false := by
  induction cs using pyWords.induct with
  | case1 =>
    simp [pyWords]
  | case2 c cs hws ih =>
    rw [pyWords, if_pos hws]
    exact ih
  | case3 c cs hws ih =>
    rw [pyWords, if_neg hws]
    intro w hw
    rcases List.mem_cons.mp hw with hw | hw
    · subst hw
      refine ⟨by simp, fun d hd => ?_⟩
      rcases List.mem_cons.mp hd with hd | hd
      · subst hd
        exact Bool.not_eq_true _ ▸ eq_false_of_ne_true hws
      · have := List.mem_takeWhile_imp hd
        simpa using this
    · exact ih w hw

/-- pyWords of a single nonempty whitespace-free word. -/
lemma pyWords_single (w : List Char) (hne : w ≠ [])
    (hcl : ∀ c ∈ w, c.isWhitespace = false) : pyWords w = [w] := by
  cases w with
  | nil => exact absurd rfl hne
  | cons c cs =>
    have hc : c.isWhitespace = false := hcl c (List.mem_cons_self c cs)
    rw [pyWords, if_neg (by simp [hc])]
    have htake : cs.takeWhile (fun d => !d.isWhitespace) = cs :=
      List.takeWhile_eq_self_iff.mpr (fun d hd => by
        simp [hcl d (List.mem_cons_of_mem c hd)])
    have hdrop : cs.dropWhile (fun d => !d.isWhitespace) = [] :=
      List.dropWhile_eq_nil_iff.mpr (fun d hd => by
        simp [hcl d (List.mem_cons_of_mem c hd)])
    rw [htake, hdrop]
    rw [show pyWords [] = [] from by simp [pyWords]]

/-- pyWords of a clean word, a space, and a remainder: the word is peeled
off and splitting continues on the remainder. -/
lemma pyWords_word_space (w t : List Char) (hne : w ≠ [])
    (hcl : ∀ c ∈ w, c.isWhitespace = false) :
    pyWords (w ++ ' ' :: t) = w :: pyWords t := by
  cases w with
  | nil => exact absurd rfl hne
  | cons c cs =>
    have hc : c.isWhitespace = false := hcl c (List.mem_cons_self c cs)
    rw [List.cons_append, pyWords, if_neg (by simp [hc])]
    have htake : (cs ++ ' ' :: t).takeWhile (fun d => !d.isWhitespace) = cs := by
      rw [List.takeWhile_append]
      have h1 : cs.takeWhile (fun d => !d.isWhitespace) = cs :=
        List.takeWhile_eq_self_iff.mpr (fun d hd => by
          simp [hcl d (List.mem_cons_of_mem c hd)])
      rw [if_pos (by rw [h1])]
      rw [show (' ' :: t).takeWhile (fun d => !d.isWhitespace) = [] from by
        simp [List.takeWhile]]
      simp
    have hdrop : (cs ++ ' ' :: t).dropWhile (fun d => !d.isWhitespace) = ' ' :: t := by
      rw [List.dropWhile_append]
      have h1 : cs.dropWhile (fun d => !d.isWhitespace) = [] :=
        List.dropWhile_eq_nil_iff.mpr (fun d hd => by
          simp [hcl d (List.mem_cons_of_mem c hd)])
      rw [if_pos (by rw [h1]; rfl)]
      simp [List.dropWhile]
    rw [htake, hdrop]
    have hsp : pyWords (' ' :: t) = pyWords t := by
      rw [pyWords, if_pos (by simp)]
    rw [hsp]

/-- Splitting the single-space join of clean words recovers the words:
the chunker's emission test len(' '.join(ws).split()) counts exactly the
words of ws. -/
lemma pyWords_joinWords (ws : List (List Char))
    (h : ∀ w ∈ ws, w ≠ [] ∧ ∀ c ∈ w, c.isWhitespace = false) :
    pyWords (joinWords ws) = ws := by
  induction ws with
  | nil => simp [joinWords, pyWords]
  | cons w ws ih =>
    cases ws with
    | nil =>
      rcases h w (List.mem_cons_self w []) with ⟨hne, hcl⟩
      rw [show joinWords [w] = w from rfl]
      exact pyWords_single w hne hcl
    | cons x xs =>
      rcases h w (List.mem_cons_self w (x :: xs)) with ⟨hne, hcl⟩
      rw [show joinWords (w :: x :: xs) = w ++ ' ' :: joinWords (x :: xs) from rfl,
        pyWords_word_space w _ hne hcl,
        ih (fun v hv => h v (List.mem_cons_of_mem w hv))]

lemma chunk_loop_acc_mem (words : List (List Char)) (fn : List Char) :
    ∀ (fuel i : ℕ) (acc : List Chunk), words.length - i ≤ fuel →
      ∀ x ∈ acc, x ∈ chunk_loop words fn i acc := by
  intro fuel
  induction fuel with
  | zero =>
    intro i acc hle x hx
    rw [chunk_loop, if_neg (by omega)]
    exact hx
  | succ fuel ih =>
    intro i acc hle x hx
    by_cases hi : i < words.length
    · rw [chunk_loop, if_pos hi]
      dsimp only
      have hstep : 0 < chunk_size - chunk_overlap := by
        norm_num [chunk_size, chunk_overlap]
      refine ih _ _ (by omega) x ?_
      split
      · exact List.mem_append_left _ hx
      · exact hx
    · rw [chunk_loop, if_neg hi]
      exact hx

lemma chunk_loop_sound (words : List (List Char)) (fn : List Char) :
    ∀ (fuel i : ℕ) (acc : List Chunk) (x : Chunk), words.length - i ≤ fuel →
      x ∈ chunk_loop words fn i acc →
      x ∈ acc ∨ ∃ m, i + m * (chunk_size - chunk_overlap) < words.length
        ∧ x.text = joinWords
            ((words.drop (i + m * (chunk_size - chunk_overlap))).take chunk_size)
        ∧ 50 ≤ (pyWords x.text).length := by
  intro fuel
  induction fuel with
  | zero =>
    intro i acc x hle hx
    rw [chunk_loop, if_neg (by omega)] at hx
    exact Or.inl hx
  | succ fuel ih =>
    intro i acc x hle hx
    by_cases hi : i < words.length
    · rw [chunk_loop, if_pos hi] at hx
      dsimp only at hx
      have hstep : 0 < chunk_size - chunk_overlap := by
        norm_num [chunk_size, chunk_overlap]
      rcases ih (i + (chunk_size - chunk_overlap)) _ x (by omega) hx with
        hacc | ⟨m, hm1, hm2, hm3⟩
      · revert hacc
        split
        next hcond =>
          intro hacc
          rcases List.mem_append.mp hacc with h | h
          · exact Or.inl h
          · right
            have hx2 := List.mem_singleton.mp h
            subst hx2
            refine ⟨0, by simpa using hi, by simp, by simpa using hcond⟩
        next hcond =>
          intro hacc
          exact Or.inl hacc
      · right
        have heq : i + (chunk_size - chunk_overlap) + m * (chunk_size - chunk_overlap) =
            i + (m + 1) * (chunk_size - chunk_overlap) := by ring
        rw [heq] at hm1 hm2
        exact ⟨m + 1, hm1, hm2, hm3⟩
    · rw [chunk_loop, if_neg hi] at hx
      exact Or.inl hx

lemma chunk_loop_complete (words : List (List Char)) (fn : List Char) :
    ∀ (fuel i : ℕ) (acc : List Chunk) (m : ℕ), words.length - i ≤ fuel →
      i + m * (chunk_size - chunk_overlap) < words.length →
      50 ≤ (pyWords (joinWords
        ((words.drop (i + m * (chunk_size - chunk_overlap))).take chunk_size))).length →
      ∃ x ∈ chunk_loop words fn i acc,
        x.text = joinWords
          ((words.drop (i + m * (chunk_size - chunk_overlap))).take chunk_size) := by
  intro fuel
  induction fuel with
  | zero =>
    intro i acc m hle hlt hcond
    exact absurd hlt (by omega)
  | succ fuel ih =>
    intro i acc m hle hlt hcond
    have hi : i < words.length := by omega
    have hstep : 0 < chunk_size - chunk_overlap := by
      norm_num [chunk_size, chunk_overlap]
    rw [chunk_loop, if_pos hi]
    dsimp only
    cases m with
    | zero =>
      simp only [zero_mul, add_zero] at hlt hcond
      rw [if_pos hcond]
      refine ⟨Chunk.mk (joinWords ((words.drop i).take chunk_size)) fn
          (infer_topic fn (joinWords ((words.drop i).take chunk_size))) acc.length,
        chunk_loop_acc_mem words fn fuel _ _ (by omega) _
          (List.mem_append_right _ (List.mem_singleton_self _)), ?_⟩
      simp
    | succ m =>
      have heq : i + (chunk_size - chunk_overlap) + m * (chunk_size - chunk_overlap) =
          i + (m + 1) * (chunk_size - chunk_overlap) := by ring
      rcases ih (i + (chunk_size - chunk_overlap)) _ m (by omega)
        (by rw [heq]; exact hlt) (by rw [heq]; exact hcond) with ⟨x, hx1, hx2⟩
      rw [heq] at hx2
      exact ⟨x, hx1, hx2⟩

/-- C7: every chunk emitted by the chunker is window k of the normalized,
whitespace-split word list — starting at word index
k * (chunkSizeWords - overlapWords) and spanning at most chunkSizeWords
words — and a window inside the text is emitted exactly when its word
count is at least 50; chunking is a pure function, so chunking the same
text twice yields the same chunk sequence. -/
theorem c7_chunker_overlapping_windows (text fn : List Char) :
    (∀ c ∈ chunk_text text fn, ∃ k,
        k * (chunk_size - chunk_overlap) < (chunkWords text).length
      ∧ c.text = joinWords (windowAt (chunkWords text) k)
      ∧ 50 ≤ (windowAt (chunkWords text) k).length
      ∧ (windowAt (chunkWords text) k).length ≤ chunk_size)
  ∧ (∀ k, k * (chunk_size - chunk_overlap) < (chunkWords text).length →
      50 ≤ (windowAt (chunkWords text) k).length →
      ∃ c ∈ chunk_text text fn,
        c.text = joinWords (windowAt (chunkWords text) k))
  ∧ chunk_text text fn = chunk_text text fn := by
  have hwin : ∀ k, pyWords (joinWords
      (((chunkWords text).drop (k * (chunk_size - chunk_overlap))).take chunk_size)) =
      ((chunkWords text).drop (k * (chunk_size - chunk_overlap))).take chunk_size :=
    fun k => pyWords_joinWords _ (fun w hw => pyWords_clean _ w
      (List.drop_subset _ _ (List.take_subset _ _ hw)))
  simp only [windowAt]
  refine ⟨?_, ?_, by trivial⟩
  · intro c hc
    rcases chunk_loop_sound (chunkWords text) fn (chunkWords text).length 0 [] c
      (by omega) hc with h0 | ⟨m, hm1, hm2, hm3⟩
    · exact absurd h0 (List.not_mem_nil c)
    · rw [zero_add] at hm1 hm2
      rw [hm2, hwin m] at hm3
      exact ⟨m, hm1, hm2, hm3, List.length_take_le _ _⟩
  · intro k hk hlen
    have hcond : 50 ≤ (pyWords (joinWords
        (((chunkWords text).drop (0 + k * (chunk_size - chunk_overlap))).take
          chunk_size))).length := by
      rw [zero_add, hwin k]
      exact hlen
    rcases chunk_loop_complete (chunkWords text) fn (chunkWords text).length 0 [] k
      (by omega) (by rw [zero_add]; exact hk) hcond with ⟨x, hx1, hx2⟩
    rw [zero_add] at hx2
    exact ⟨x, hx1, hx2⟩
